import Mathlib

/-!
Shallow embedding of the archive lifecycle and replication manager of the
hypercloud repository (src/lib/archiver.js) together with the per-key lock
described in the spec, and proofs of the frozen claims about them.

Modelling conventions:
- JavaScript object maps (this.archives, this.loadPromises) are insertion
  ordered association lists with unique string keys. Archive handles and load
  promises are identified by natural number ids; each run of _loadArchiveInner
  creates exactly one archive object and one promise, so one id serves both.
- The async functions of archiver.js run synchronously between awaits. Each
  function is split into its atomic segments at its await points, so any
  interleaving of concurrent calls is a composition of segment functions.
- External effects (mkdirp, hyperdrive storage open, storage close, stream
  destroy) are represented by the segment boundaries and by outcome
  parameters; the registry never observes them except through these.
-/

/-! ## Association list helpers -/

/-- Lookup in a JavaScript-object-like association list. -/
def alookup {α β : Type} [DecidableEq α] (k : α) : List (α × β) → Option β
  | [] => none
  | p :: rest => if p.1 = k then some p.2 else alookup k rest

/-- Assignment `obj[k] = v`: replace in place, or append a new entry. -/
def ainsert {α β : Type} [DecidableEq α] (k : α) (v : β) : List (α × β) → List (α × β)
  | [] => [(k, v)]
  | p :: rest => if p.1 = k then (k, v) :: rest else p :: ainsert k v rest

/-- Deletion `delete obj[k]`: keys are unique in a JS object, so removal of
every pair with that key is the faithful rendering. -/
def aerase {α β : Type} [DecidableEq α] (k : α) (l : List (α × β)) : List (α × β) :=
  l.filter (fun p => decide (p.1 ≠ k))

/-! ## Keys: dat-encoding normalization versus raw JS property coercion

`loadArchive` and `closeArchive` call `datEncoding.toStr(key)` before touching
the maps (archiver.js lines 35 and 66); `getArchive` and `isLoadingArchive`
index the maps with the raw argument (lines 25-31), which JavaScript coerces
to a property string: a canonical hex string stays itself, a Buffer is
coerced through `Buffer.prototype.toString()`, a lossy UTF-8 decode. -/

/-- Hex digit character for a value below 16, lowercase as dat-encoding emits. -/
def hexDigit (n : Nat) : Char :=
  if n < 10 then Char.ofNat (48 + n) else Char.ofNat (87 + n)

/-- Hex characters of a byte list, two digits per byte. -/
def hexChars : List Nat → List Char
  | [] => []
  | b :: rest => hexDigit (b / 16 % 16) :: hexDigit (b % 16) :: hexChars rest

/-- The canonical string form `datEncoding.toStr` produces for a byte buffer. -/
def hexEncode (bs : List Nat) : String :=
  String.mk (hexChars bs)

/-- The Unicode replacement character emitted by lossy UTF-8 decoding. -/
def replacementChar : Char := Char.ofNat 0xFFFD

/-- Decoder state of the incremental WHATWG UTF-8 decoder: accumulated code
point, remaining continuation bytes, and the accepted range of the next byte. -/
structure Utf8State where
  acc : Nat
  needed : Nat
  lower : Nat
  upper : Nat
  deriving DecidableEq

/-- Initial (and reset) decoder state. -/
def utf8Reset : Utf8State := ⟨0, 0, 0x80, 0xBF⟩

/-- Classify a byte arriving with no sequence in progress, per WHATWG. -/
def utf8Step0 (b : Nat) : Utf8State × List Char :=
  if b ≤ 0x7F then (utf8Reset, [Char.ofNat b])
  else if 0xC2 ≤ b ∧ b ≤ 0xDF then (⟨b % 0x20, 1, 0x80, 0xBF⟩, [])
  else if b = 0xE0 then (⟨b % 0x10, 2, 0xA0, 0xBF⟩, [])
  else if b = 0xED then (⟨b % 0x10, 2, 0x80, 0x9F⟩, [])
  else if 0xE1 ≤ b ∧ b ≤ 0xEF then (⟨b % 0x10, 2, 0x80, 0xBF⟩, [])
  else if b = 0xF0 then (⟨b % 0x8, 3, 0x90, 0xBF⟩, [])
  else if b = 0xF4 then (⟨b % 0x8, 3, 0x80, 0x8F⟩, [])
  else if 0xF1 ≤ b ∧ b ≤ 0xF3 then (⟨b % 0x8, 3, 0x80, 0xBF⟩, [])
  else (utf8Reset, [replacementChar])

/-- One byte of lossy UTF-8 decoding: continue the pending sequence if the
byte is in range, otherwise emit a replacement character and reprocess the
byte as a fresh start byte. -/
def utf8Step (st : Utf8State) (b : Nat) : Utf8State × List Char :=
  if st.needed = 0 then utf8Step0 b
  else if st.lower ≤ b ∧ b ≤ st.upper then
    if st.needed = 1 then (utf8Reset, [Char.ofNat (st.acc * 0x40 + (b - 0x80))])
    else (⟨st.acc * 0x40 + (b - 0x80), st.needed - 1, 0x80, 0xBF⟩, [])
  else
    ((utf8Step0 b).1, replacementChar :: (utf8Step0 b).2)

/-- Run the decoder over a byte list; an unfinished sequence at the end of
input yields one final replacement character. -/
def utf8Run (st : Utf8State) : List Nat → List Char
  | [] => if st.needed = 0 then [] else [replacementChar]
  | b :: rest => (utf8Step st b).2 ++ utf8Run (utf8Step st b).1 rest

/-- Lossy UTF-8 decode of a byte list, the behaviour of
`Buffer.prototype.toString()` with its default encoding. -/
def utf8DecodeLossy (bs : List Nat) : List Char :=
  utf8Run utf8Reset bs

/-- An archive key as a caller may supply it: already a canonical hex string,
or a raw byte buffer. -/
inductive JsKey
  | str (s : String)
  | buf (bytes : List Nat)

/-- The normalization `datEncoding.toStr` applies before map access: a valid
canonical hex string passes through unchanged, a buffer is hex encoded. -/
def datEncodingToStr : JsKey → String
  | JsKey.str s => s
  | JsKey.buf b => hexEncode b

/-- The property string JavaScript uses when a key indexes an object map
directly, as in `this.archives[key]`: strings stay themselves, buffers are
coerced through their lossy UTF-8 string form. -/
def jsPropertyKey : JsKey → String
  | JsKey.str s => s
  | JsKey.buf b => String.mk (utf8DecodeLossy b)

/-! ## The Archiver registry (src/lib/archiver.js)

The constructor (lines 16-20) creates two empty maps, `archives` (resident
handles) and `loadPromises` (in-flight loads). We additionally record, purely
as observations, how many storage opens have been performed, the outcome each
settled promise id delivered to its awaiters, and a fresh-id counter. -/

/-- Failure modes of the modelled external collaborators. -/
inductive ArchiverErr
  | storageOpen
  | closeFail
  deriving DecidableEq

/-- The mutable state of one Archiver instance. -/
structure ArchiverState where
  archives : List (String × Nat) := []
  loadPromises : List (String × Nat) := []
  settled : List (Nat × Except ArchiverErr Nat) := []
  openCount : Nat := 0
  nextId : Nat := 0

/-- The state right after `new Archiver(config)`. -/
def archiverInit : ArchiverState := {}

/-- Result `getArchive(key)` (line 25-27): raw property lookup, no
normalization, never suspends. -/
def getArchive (st : ArchiverState) (key : JsKey) : Option Nat :=
  alookup (jsPropertyKey key) st.archives

/-- Result of `isLoadingArchive(key)` (lines 29-31): raw `key in
this.loadPromises` check, no normalization. -/
def isLoadingArchive (st : ArchiverState) (key : JsKey) : Bool :=
  (alookup (jsPropertyKey key) st.loadPromises).isSome

/-- The outcome a settled load promise delivered to every caller awaiting it. -/
def promiseResult (st : ArchiverState) (pid : Nat) : Option (Except ArchiverErr Nat) :=
  alookup pid st.settled

/-- What the first atomic segment of `loadArchive` (lines 34-49) produced. -/
inductive LoadSeg1Out
  | resident (handle : Nat)
  | joined (pid : Nat)
  | suspendedAtMkdirp (k : String)
  deriving DecidableEq

/-- First atomic segment of `loadArchive(key)`, lines 34-49: normalize the
key, fall back to a resident archive (lines 38-40), fall back to a cached
load promise (lines 43-45), otherwise reach `await mkdirp(archivePath)`
(line 49) and suspend, holding the normalized key. The registry maps are not
modified before that await. -/
def loadArchive_seg1 (st : ArchiverState) (key : JsKey) : LoadSeg1Out :=
  let k := datEncodingToStr key
  match alookup k st.archives with
  | some h => LoadSeg1Out.resident h
  | none =>
    match alookup k st.loadPromises with
    | some pid => LoadSeg1Out.joined pid
    | none => LoadSeg1Out.suspendedAtMkdirp k

/-- Second atomic segment of `loadArchive`, lines 52-62, resuming after the
mkdirp await: `_loadArchiveInner` is invoked, which synchronously constructs
the hyperdrive storage handle (line 92, one storage open) before suspending
on `archive.ready`; back in the wrapper the pending promise is cached in
`loadPromises[key]` (line 53, overwriting any entry) and the settle callbacks
are registered. Returns the promise id handed to the caller. -/
def loadArchive_seg2 (st : ArchiverState) (k : String) : ArchiverState × Nat :=
  let pid := st.nextId
  ({ st with
      openCount := st.openCount + 1
      nextId := st.nextId + 1
      loadPromises := ainsert k pid st.loadPromises }, pid)

/-- The inner load for promise `pid` settles. The two reactions registered at
lines 56-60 run back to back: `clear` deletes `loadPromises[key]`
unconditionally on success and on failure, and on success
`this.archives[key] = archive` publishes the handle. The outcome is recorded
as what every awaiter of `pid` observes. -/
def settleLoad (st : ArchiverState) (k : String) (pid : Nat)
    (res : Except ArchiverErr Unit) : ArchiverState :=
  match res with
  | Except.ok _ =>
    { st with
        loadPromises := aerase k st.loadPromises
        archives := ainsert k pid st.archives
        settled := (pid, Except.ok pid) :: st.settled }
  | Except.error e =>
    { st with
        loadPromises := aerase k st.loadPromises
        settled := (pid, Except.error e) :: st.settled }

/-- Complete run of `closeArchive(key)` (lines 65-74) with no interleaving:
normalize the key, look it up among resident archives; when absent the
function returns at once (the `if (archive)` guard fails). When resident,
the synchronous teardown (`s.destroy()` on every stream, `swarm.close()`)
may throw, which rejects the returned promise with the registry untouched;
otherwise the storage close is awaited and the key is deleted from
`archives`. `fails h` says whether teardown of handle `h` throws. -/
def closeArchive_run (st : ArchiverState) (key : JsKey) (fails : Nat → Bool) :
    ArchiverState × Except ArchiverErr Unit :=
  let k := datEncodingToStr key
  match alookup k st.archives with
  | none => (st, Except.ok ())
  | some h =>
    if fails h then (st, Except.error ArchiverErr.closeFail)
    else ({ st with archives := aerase k st.archives }, Except.ok ())

/-- Worker for `closeAllArchives`: fold the per-key closes over the snapshot
of `Object.keys(this.archives)`, recording the aggregate `Promise.all`
outcome, which is the first rejection when one occurs. A failing close leaves
its own key resident; a succeeding close deletes its key. -/
def closeAllGo (fails : Nat → Bool) :
    List (String × Nat) → ArchiverState → Except ArchiverErr Unit →
    ArchiverState × Except ArchiverErr Unit
  | [], st, r => (st, r)
  | p :: rest, st, r =>
    if fails p.2 then
      closeAllGo fails rest st
        (match r with
         | Except.ok _ => Except.error ArchiverErr.closeFail
         | Except.error e => Except.error e)
    else
      closeAllGo fails rest { st with archives := aerase p.1 st.archives } r

/-- Complete run of `closeAllArchives()` (lines 76-80):
`Promise.all(Object.keys(this.archives).map(key => this.closeArchive(key)))`.
Every per-key close is initiated on the snapshot of resident keys and runs to
its own completion; the aggregate rejects if any one rejects. -/
def closeAllArchives (st : ArchiverState) (fails : Nat → Bool) :
    ArchiverState × Except ArchiverErr Unit :=
  closeAllGo fails st.archives st (Except.ok ())

/-! ## Swarm replication streams (archiver.js lines 104-135)

Per resident archive, the swarm `stream` callback creates a replication
stream, appends it to `archive.replicationStreams` (line 116), registers a
once-close handler that splices it out (lines 117-121), arms a 5000 ms
handshake timer that destroys the stream with a timeout error (lines
124-127), and cancels that timer on the handshake event (line 128). Streams
are identified by creation order; real time enters only through the relative
order of the handshake event and the timer firing, so traces of the events
below cover every timing. -/

/-- The named handshake deadline constant, `5000` at line 127. -/
def handshakeTimeoutMs : Nat := 5000

/-- Observable state of one archive handle with respect to its replication
streams. -/
structure SwarmState where
  nextSid : Nat := 0
  created : List Nat := []
  streams : List Nat := []
  timerArmed : List Nat := []
  destroyedTimeout : List Nat := []
  closed : List Nat := []

/-- The stream bookkeeping of a freshly loaded archive:
`archive.replicationStreams = []` (line 93). -/
def swarmInit : SwarmState := {}

/-- Events that drive the per-archive stream bookkeeping. -/
inductive SwarmEv
  | connect
  | handshake (sid : Nat)
  | timerFire (sid : Nat)
  | closeEv (sid : Nat)
  deriving DecidableEq

/-- One event of the stream lifecycle, exactly as the handlers at lines
115-128 behave: a connection creates and appends a fresh stream and arms its
timer; a handshake clears the timer; the timer firing, when still armed,
destroys that one stream with the timeout error; the close event of a stream,
whatever caused the close, splices it out of the collection once. -/
def swarmStep (st : SwarmState) : SwarmEv → SwarmState
  | SwarmEv.connect =>
    { st with
        nextSid := st.nextSid + 1
        created := st.created ++ [st.nextSid]
        streams := st.streams ++ [st.nextSid]
        timerArmed := st.nextSid :: st.timerArmed }
  | SwarmEv.handshake sid =>
    { st with timerArmed := st.timerArmed.erase sid }
  | SwarmEv.timerFire sid =>
    if sid ∈ st.timerArmed then
      { st with
          timerArmed := st.timerArmed.erase sid
          destroyedTimeout := sid :: st.destroyedTimeout }
    else st
  | SwarmEv.closeEv sid =>
    if sid ∈ st.created ∧ sid ∉ st.closed then
      { st with streams := st.streams.erase sid, closed := sid :: st.closed }
    else st

/-- Run a trace of stream events. -/
def swarmRun (st : SwarmState) (evs : List SwarmEv) : SwarmState :=
  evs.foldl swarmStep st

/-- Structural well-formedness of the stream bookkeeping, an invariant of
every reachable state: ids are bounded by the fresh counter, timers and the
collection hold no duplicates, closed streams were created, and the
collection holds exactly the created, not yet closed streams. -/
def SwarmInv (st : SwarmState) : Prop :=
  (∀ s ∈ st.created, s < st.nextSid) ∧
  (∀ s ∈ st.timerArmed, s < st.nextSid) ∧
  st.timerArmed.Nodup ∧
  (∀ s ∈ st.closed, s ∈ st.created) ∧
  st.streams.Nodup ∧
  (∀ s : Nat, s ∈ st.streams ↔ (s ∈ st.created ∧ s ∉ st.closed))

/-! ## KeyedMutex

Modelled from the spec: the per-key lock module (`lib/lock.js`) is required
by the users DB, which requires the module as lock and awaits
lock(users:write: plus the record id) around each record write, but the
module itself is not under src/. Spec section 4.4: `acquire(key)` suspends until the holder
releases, same-key acquisitions are granted in FIFO arrival order, distinct
keys never block one another. The model keeps one FIFO queue of acquisition
tickets per key; the queue head is the holder, whose critical section runs
from being granted (reaching the head) until its release pops it. -/

/-- State of the keyed mutual exclusion primitive. -/
structure KeyedMutex where
  queues : List (String × List Nat) := []
  nextAcq : Nat := 0

/-- The lock with no holders and no waiters. -/
def mutexInit : KeyedMutex := {}

/-- Events on the keyed mutex: an acquisition request arriving, and the
current holder of a key releasing. -/
inductive MEv
  | acq (k : String)
  | rel (k : String)
  deriving DecidableEq

/-- Append an acquisition ticket to the FIFO queue of its key. -/
def qpush (k : String) (a : Nat) : List (String × List Nat) → List (String × List Nat)
  | [] => [(k, [a])]
  | p :: rest => if p.1 = k then (p.1, p.2 ++ [a]) :: rest else p :: qpush k a rest

/-- Pop the head of the queue of a key: the holder releases and the next
waiter, if any, is granted. -/
def qpop (k : String) : List (String × List Nat) → List (String × List Nat)
  | [] => []
  | p :: rest => if p.1 = k then (p.1, p.2.tail) :: rest else p :: qpop k rest

/-- One mutex event. -/
def mutexStep (m : KeyedMutex) : MEv → KeyedMutex
  | MEv.acq k => { queues := qpush k m.nextAcq m.queues, nextAcq := m.nextAcq + 1 }
  | MEv.rel k => { m with queues := qpop k m.queues }

/-- Run a trace of mutex events. -/
def mutexRun (m : KeyedMutex) (evs : List MEv) : KeyedMutex :=
  evs.foldl mutexStep m

/-- The pending FIFO queue of a key, oldest first; the head is the holder. -/
def mutexQueue (m : KeyedMutex) (k : String) : List Nat :=
  (alookup k m.queues).getD []

/-- The acquisition currently inside the critical section of a key. -/
def mutexHolder (m : KeyedMutex) (k : String) : Option Nat :=
  (mutexQueue m k).head?

/-- The tickets a trace assigns to the acquisition requests for one key, in
arrival order, when ticket numbering starts at `n`. -/
def arrivalsOf (k : String) : Nat → List MEv → List Nat
  | _, [] => []
  | n, MEv.acq k2 :: evs =>
    if k2 = k then n :: arrivalsOf k (n + 1) evs else arrivalsOf k (n + 1) evs
  | n, MEv.rel _ :: evs => arrivalsOf k n evs

/-! ## Association list lemmas -/

theorem alookup_ainsert_self {β : Type} (k : String) (v : β) (l : List (String × β)) :
    alookup k (ainsert k v l) = some v := by
  induction l with
  | nil => simp [ainsert, alookup]
  | cons p rest ih =>
    by_cases h : p.1 = k
    · simp [ainsert, alookup, h]
    · simp [ainsert, alookup, h, ih]

theorem alookup_ainsert_ne {β : Type} {k2 k : String} (h : k2 ≠ k) (v : β)
    (l : List (String × β)) : alookup k2 (ainsert k v l) = alookup k2 l := by
  induction l with
  | nil => simp [ainsert, alookup, Ne.symm h]
  | cons p rest ih =>
    by_cases hp : p.1 = k
    · simp [ainsert, alookup, hp, Ne.symm h]
    · by_cases hq : p.1 = k2
      · simp [ainsert, alookup, hp, hq, h]
      · simp [ainsert, alookup, hp, hq, ih]

theorem alookup_aerase_self {β : Type} (k : String) (l : List (String × β)) :
    alookup k (aerase k l) = none := by
  induction l with
  | nil => rfl
  | cons p rest ih =>
    by_cases h : p.1 = k
    · have hf : aerase k (p :: rest) = aerase k rest := by
        simp [aerase, List.filter_cons, h]
      rw [hf]
      exact ih
    · have hf : aerase k (p :: rest) = p :: aerase k rest := by
        simp [aerase, List.filter_cons, h]
      rw [hf, alookup, if_neg h]
      exact ih

theorem alookup_aerase_ne {β : Type} {k2 k : String} (h : k2 ≠ k) (l : List (String × β)) :
    alookup k2 (aerase k l) = alookup k2 l := by
  induction l with
  | nil => rfl
  | cons p rest ih =>
    by_cases hp : p.1 = k
    · have hf : aerase k (p :: rest) = aerase k rest := by
        simp [aerase, List.filter_cons, hp]
      have hne : ¬p.1 = k2 := by
        rw [hp]
        exact Ne.symm h
      rw [hf, ih, alookup, if_neg hne]
    · have hf : aerase k (p :: rest) = p :: aerase k rest := by
        simp [aerase, List.filter_cons, hp]
      rw [hf, alookup, alookup, ih]

theorem alookup_aerase_none {β : Type} {k : String} (k2 : String) {l : List (String × β)}
    (h : alookup k l = none) : alookup k (aerase k2 l) = none := by
  by_cases hk : k = k2
  · subst hk
    exact alookup_aerase_self k l
  · rw [alookup_aerase_ne hk]
    exact h

/-! ## Lemmas about closeAllArchives -/

theorem closeAllGo_error (fails : Nat → Bool) (l : List (String × Nat))
    (st : ArchiverState) (e : ArchiverErr) :
    (closeAllGo fails l st (Except.error e)).2 = Except.error e := by
  induction l generalizing st with
  | nil => rfl
  | cons p rest ih =>
    by_cases h : fails p.2
    · simpa [closeAllGo, h] using ih st
    · simpa [closeAllGo, h] using ih { st with archives := aerase p.1 st.archives }

theorem closeAllGo_none (fails : Nat → Bool) (l : List (String × Nat)) {k : String}
    {st : ArchiverState} (r : Except ArchiverErr Unit)
    (h : alookup k st.archives = none) :
    alookup k (closeAllGo fails l st r).1.archives = none := by
  induction l generalizing st r with
  | nil => exact h
  | cons p rest ih =>
    by_cases hf : fails p.2
    · simp only [closeAllGo, hf, if_true]
      exact ih _ h
    · simp only [closeAllGo, hf, if_false]
      exact ih r (alookup_aerase_none p.1 h)

theorem closeAllGo_mem (fails : Nat → Bool) {k : String} {h : Nat}
    (hok : fails h = false) :
    ∀ (l : List (String × Nat)) (st : ArchiverState) (r : Except ArchiverErr Unit),
      (k, h) ∈ l → alookup k (closeAllGo fails l st r).1.archives = none := by
  intro l
  induction l with
  | nil =>
    intro st r hmem
    cases hmem
  | cons p rest ih =>
    intro st r hmem
    rcases List.mem_cons.mp hmem with hhead | htail
    · subst hhead
      simp only [closeAllGo, hok, Bool.false_eq_true, if_false]
      exact closeAllGo_none fails rest r (alookup_aerase_self k st.archives)
    · cases hfb : fails p.2
      · simp only [closeAllGo, hfb, Bool.false_eq_true, if_false]
        exact ih _ _ htail
      · simp only [closeAllGo, hfb, if_true]
        exact ih _ _ htail

theorem closeAllGo_ok_iff (fails : Nat → Bool) :
    ∀ (l : List (String × Nat)) (st : ArchiverState),
      (closeAllGo fails l st (Except.ok ())).2 = Except.ok () ↔
        ∀ p ∈ l, fails p.2 = false := by
  intro l
  induction l with
  | nil =>
    intro st
    simp [closeAllGo]
  | cons p rest ih =>
    intro st
    cases hfb : fails p.2
    · simp [closeAllGo, hfb, ih]
    · simp [closeAllGo, hfb, closeAllGo_error]

/-! ## Length facts about the key encodings -/

theorem hexChars_length (bs : List Nat) : (hexChars bs).length = 2 * bs.length := by
  induction bs with
  | nil => rfl
  | cons b rest ih =>
    simp [hexChars, ih]
    ring

theorem utf8Step0_len (b : Nat) :
    (utf8Step0 b).2.length + (if (utf8Step0 b).1.needed = 0 then 0 else 1) ≤ 1 := by
  simp only [utf8Step0, utf8Reset]
  split_ifs <;> simp_all

theorem utf8Step_len (st : Utf8State) (b : Nat) :
    (utf8Step st b).2.length + (if (utf8Step st b).1.needed = 0 then 0 else 1) ≤
      1 + (if st.needed = 0 then 0 else 1) := by
  by_cases h0 : st.needed = 0
  · have h := utf8Step0_len b
    have he : utf8Step st b = utf8Step0 b := by simp [utf8Step, h0]
    rw [he]
    simp only [h0, if_true]
    simpa using h
  · by_cases hr : st.lower ≤ b ∧ b ≤ st.upper
    · by_cases h1 : st.needed = 1
      · simp [utf8Step, h0, hr, h1, utf8Reset]
      · have he : utf8Step st b =
            (⟨st.acc * 0x40 + (b - 0x80), st.needed - 1, 0x80, 0xBF⟩, []) := by
          simp [utf8Step, h0, hr, h1]
        rw [he]
        show ([] : List Char).length + (if st.needed - 1 = 0 then 0 else 1) ≤
          1 + (if st.needed = 0 then 0 else 1)
        simp only [List.length_nil]
        split_ifs <;> omega
    · have h := utf8Step0_len b
      simp only [utf8Step, if_neg h0, if_neg hr]
      simp only [List.length_cons, if_neg h0]
      omega

theorem utf8Run_len (bs : List Nat) (st : Utf8State) :
    (utf8Run st bs).length ≤ bs.length + (if st.needed = 0 then 0 else 1) := by
  induction bs generalizing st with
  | nil =>
    by_cases h : st.needed = 0 <;> simp [utf8Run, h]
  | cons b rest ih =>
    have hstep := utf8Step_len st b
    have hrec := ih (utf8Step st b).1
    simp only [utf8Run, List.length_append, List.length_cons]
    omega

theorem utf8DecodeLossy_len (bs : List Nat) : (utf8DecodeLossy bs).length ≤ bs.length := by
  have := utf8Run_len bs utf8Reset
  simpa [utf8DecodeLossy, utf8Reset] using this

theorem jsPropertyKey_buf_ne_hex {bs : List Nat} (h : bs ≠ []) :
    jsPropertyKey (JsKey.buf bs) ≠ hexEncode bs := by
  intro heq
  have hlen : (utf8DecodeLossy bs).length = (hexChars bs).length := by
    have : (String.mk (utf8DecodeLossy bs)).data = (String.mk (hexChars bs)).data := by
      rw [show String.mk (utf8DecodeLossy bs) = jsPropertyKey (JsKey.buf bs) from rfl, heq]
      rfl
    simpa using congrArg List.length this
  have h1 : (utf8DecodeLossy bs).length ≤ bs.length := utf8DecodeLossy_len bs
  have h2 : (hexChars bs).length = 2 * bs.length := hexChars_length bs
  have h3 : 0 < bs.length := List.length_pos.mpr h
  omega

/-! ## Swarm stream invariants -/

theorem swarmInv_init : SwarmInv swarmInit := by
  simp [SwarmInv, swarmInit]

theorem swarmStep_timerFire_pos {st : SwarmState} {sid : Nat} (h : sid ∈ st.timerArmed) :
    swarmStep st (SwarmEv.timerFire sid) =
      { st with
          timerArmed := st.timerArmed.erase sid
          destroyedTimeout := sid :: st.destroyedTimeout } := by
  simp [swarmStep, h]

theorem swarmStep_timerFire_neg {st : SwarmState} {sid : Nat} (h : sid ∉ st.timerArmed) :
    swarmStep st (SwarmEv.timerFire sid) = st := by
  simp [swarmStep, h]

theorem swarmStep_closeEv_pos {st : SwarmState} {sid : Nat}
    (h : sid ∈ st.created ∧ sid ∉ st.closed) :
    swarmStep st (SwarmEv.closeEv sid) =
      { st with streams := st.streams.erase sid, closed := sid :: st.closed } := by
  simp only [swarmStep, if_pos h]

theorem swarmStep_closeEv_neg {st : SwarmState} {sid : Nat}
    (h : ¬(sid ∈ st.created ∧ sid ∉ st.closed)) :
    swarmStep st (SwarmEv.closeEv sid) = st := by
  simp only [swarmStep, if_neg h]

theorem swarmInv_step (st : SwarmState) (e : SwarmEv) (hinv : SwarmInv st) :
    SwarmInv (swarmStep st e) := by
  obtain ⟨hc, ha, hand, hcl, hsnd, hiff⟩ := hinv
  cases e with
  | connect =>
    refine ⟨?_, ?_, ?_, ?_, ?_, ?_⟩
    · intro s hs
      rcases List.mem_append.mp hs with h | h
      · exact Nat.lt_succ_of_lt (hc s h)
      · rw [List.mem_singleton.mp h]
        exact Nat.lt_succ_self _
    · intro s hs
      rcases List.mem_cons.mp hs with h | h
      · rw [h]
        exact Nat.lt_succ_self _
      · exact Nat.lt_succ_of_lt (ha s h)
    · refine List.nodup_cons.mpr ⟨fun hmem => ?_, hand⟩
      exact absurd (ha _ hmem) (lt_irrefl _)
    · intro s hs
      exact List.mem_append_left _ (hcl s hs)
    · refine List.Nodup.append hsnd (List.nodup_singleton _) ?_
      intro s hs hs2
      rw [List.mem_singleton.mp hs2] at hs
      have hscr := ((hiff _).mp hs).1
      exact absurd (hc _ hscr) (lt_irrefl _)
    · intro s
      show s ∈ st.streams ++ [st.nextSid] ↔
        s ∈ st.created ++ [st.nextSid] ∧ s ∉ st.closed
      rw [List.mem_append, List.mem_append, List.mem_singleton]
      constructor
      · rintro (hs | rfl)
        · obtain ⟨h1, h2⟩ := (hiff s).mp hs
          exact ⟨Or.inl h1, h2⟩
        · refine ⟨Or.inr rfl, fun hin => ?_⟩
          exact absurd (hc _ (hcl _ hin)) (lt_irrefl _)
      · rintro ⟨hs | rfl, h2⟩
        · exact Or.inl ((hiff s).mpr ⟨hs, h2⟩)
        · exact Or.inr rfl
  | handshake sid =>
    exact ⟨hc, fun s hs => ha s (List.mem_of_mem_erase hs), hand.erase sid, hcl, hsnd, hiff⟩
  | timerFire sid =>
    by_cases h : sid ∈ st.timerArmed
    · rw [swarmStep_timerFire_pos h]
      exact ⟨hc, fun s hs => ha s (List.mem_of_mem_erase hs), hand.erase sid, hcl, hsnd, hiff⟩
    · rw [swarmStep_timerFire_neg h]
      exact ⟨hc, ha, hand, hcl, hsnd, hiff⟩
  | closeEv sid =>
    by_cases h : sid ∈ st.created ∧ sid ∉ st.closed
    · rw [swarmStep_closeEv_pos h]
      refine ⟨hc, ha, hand, ?_, hsnd.erase sid, ?_⟩
      · intro s hs
        rcases List.mem_cons.mp hs with rfl | hs2
        · exact h.1
        · exact hcl s hs2
      · intro s
        show s ∈ st.streams.erase sid ↔ s ∈ st.created ∧ s ∉ sid :: st.closed
        rw [hsnd.mem_erase_iff]
        constructor
        · rintro ⟨hne, hmem⟩
          obtain ⟨h1, h2⟩ := (hiff s).mp hmem
          refine ⟨h1, fun hin => ?_⟩
          rcases List.mem_cons.mp hin with rfl | hin2
          · exact hne rfl
          · exact h2 hin2
        · rintro ⟨hcr, hncl⟩
          have hne : s ≠ sid := fun heq => hncl (heq ▸ List.mem_cons_self _ _)
          refine ⟨hne, (hiff s).mpr ⟨hcr, fun hin => hncl (List.mem_cons_of_mem _ hin)⟩⟩
    · rw [swarmStep_closeEv_neg h]
      exact ⟨hc, ha, hand, hcl, hsnd, hiff⟩

theorem swarmInv_run (evs : List SwarmEv) (st : SwarmState) (hinv : SwarmInv st) :
    SwarmInv (swarmRun st evs) := by
  induction evs generalizing st with
  | nil => exact hinv
  | cons e evs ih => exact ih _ (swarmInv_step st e hinv)

theorem timeoutSafe_step (sid : Nat) (st : SwarmState) (e : SwarmEv)
    (h1 : sid ∉ st.timerArmed) (h2 : sid ∉ st.destroyedTimeout) (h3 : sid < st.nextSid) :
    sid ∉ (swarmStep st e).timerArmed ∧ sid ∉ (swarmStep st e).destroyedTimeout ∧
      sid < (swarmStep st e).nextSid := by
  cases e with
  | connect =>
    refine ⟨?_, h2, Nat.lt_succ_of_lt h3⟩
    intro hmem
    rcases List.mem_cons.mp hmem with heq | hmem2
    · omega
    · exact h1 hmem2
  | handshake s =>
    exact ⟨fun hm => h1 (List.mem_of_mem_erase hm), h2, h3⟩
  | timerFire s =>
    by_cases hs : s ∈ st.timerArmed
    · have hne : s ≠ sid := fun heq => h1 (heq ▸ hs)
      rw [swarmStep_timerFire_pos hs]
      refine ⟨fun hm => h1 (List.mem_of_mem_erase hm), ?_, h3⟩
      intro hm
      rcases List.mem_cons.mp hm with heq | hm2
      · exact hne heq.symm
      · exact h2 hm2
    · rw [swarmStep_timerFire_neg hs]
      exact ⟨h1, h2, h3⟩
  | closeEv s =>
    by_cases hs : s ∈ st.created ∧ s ∉ st.closed
    · rw [swarmStep_closeEv_pos hs]
      exact ⟨h1, h2, h3⟩
    · rw [swarmStep_closeEv_neg hs]
      exact ⟨h1, h2, h3⟩

theorem timeoutSafe_run (sid : Nat) (evs : List SwarmEv) (st : SwarmState)
    (h1 : sid ∉ st.timerArmed) (h2 : sid ∉ st.destroyedTimeout) (h3 : sid < st.nextSid) :
    sid ∉ (swarmRun st evs).timerArmed ∧ sid ∉ (swarmRun st evs).destroyedTimeout ∧
      sid < (swarmRun st evs).nextSid := by
  induction evs generalizing st with
  | nil => exact ⟨h1, h2, h3⟩
  | cons e evs ih =>
    obtain ⟨g1, g2, g3⟩ := timeoutSafe_step sid st e h1 h2 h3
    exact ih _ g1 g2 g3

theorem notFired_run (sid : Nat) (evs : List SwarmEv) (st : SwarmState)
    (h2 : sid ∉ st.destroyedTimeout) (hno : SwarmEv.timerFire sid ∉ evs) :
    sid ∉ (swarmRun st evs).destroyedTimeout := by
  induction evs generalizing st with
  | nil => exact h2
  | cons e evs ih =>
    have hne : e ≠ SwarmEv.timerFire sid := fun heq => hno (heq ▸ List.mem_cons_self _ _)
    have hstep : sid ∉ (swarmStep st e).destroyedTimeout := by
      cases e with
      | connect => exact h2
      | handshake s => exact h2
      | timerFire s =>
        by_cases hs : s ∈ st.timerArmed
        · have hsne : s ≠ sid := fun heq => hne (by rw [heq])
          rw [swarmStep_timerFire_pos hs]
          intro hm
          rcases List.mem_cons.mp hm with heq | hm2
          · exact hsne heq.symm
          · exact h2 hm2
        · rw [swarmStep_timerFire_neg hs]
          exact h2
      | closeEv s =>
        by_cases hs : s ∈ st.created ∧ s ∉ st.closed
        · rw [swarmStep_closeEv_pos hs]
          exact h2
        · rw [swarmStep_closeEv_neg hs]
          exact h2
    exact ih _ hstep (fun hm => hno (List.mem_cons_of_mem _ hm))

/-! ## KeyedMutex lemmas -/

theorem alookup_qpush_self (k : String) (a : Nat) (l : List (String × List Nat)) :
    alookup k (qpush k a l) = some ((alookup k l).getD [] ++ [a]) := by
  induction l with
  | nil => simp [qpush, alookup]
  | cons p rest ih =>
    by_cases h : p.1 = k
    · simp [qpush, alookup, h]
    · simp [qpush, alookup, h, ih]

theorem alookup_qpush_ne {k2 k : String} (h : k2 ≠ k) (a : Nat)
    (l : List (String × List Nat)) : alookup k2 (qpush k a l) = alookup k2 l := by
  induction l with
  | nil => simp [qpush, alookup, Ne.symm h]
  | cons p rest ih =>
    by_cases hp : p.1 = k
    · simp [qpush, alookup, hp, Ne.symm h]
    · by_cases hq : p.1 = k2
      · simp [qpush, alookup, hp, hq, h]
      · simp [qpush, alookup, hp, hq, ih]

theorem alookup_qpop_self (k : String) (l : List (String × List Nat)) :
    alookup k (qpop k l) = (alookup k l).map List.tail := by
  induction l with
  | nil => rfl
  | cons p rest ih =>
    by_cases h : p.1 = k
    · simp [qpop, alookup, h]
    · simp [qpop, alookup, h, ih]

theorem alookup_qpop_ne {k2 k : String} (h : k2 ≠ k)
    (l : List (String × List Nat)) : alookup k2 (qpop k l) = alookup k2 l := by
  induction l with
  | nil => rfl
  | cons p rest ih =>
    by_cases hp : p.1 = k
    · simp [qpop, alookup, hp, Ne.symm h]
    · by_cases hq : p.1 = k2
      · simp [qpop, alookup, hp, hq, h]
      · simp [qpop, alookup, hp, hq, ih]

theorem mutexQueue_acq_self (m : KeyedMutex) (k : String) :
    mutexQueue (mutexStep m (MEv.acq k)) k = mutexQueue m k ++ [m.nextAcq] := by
  simp [mutexQueue, mutexStep, alookup_qpush_self]

theorem mutexQueue_acq_ne {k2 k : String} (h : k2 ≠ k) (m : KeyedMutex) :
    mutexQueue (mutexStep m (MEv.acq k)) k2 = mutexQueue m k2 := by
  simp [mutexQueue, mutexStep, alookup_qpush_ne h]

theorem mutexQueue_rel_self (m : KeyedMutex) (k : String) :
    mutexQueue (mutexStep m (MEv.rel k)) k = (mutexQueue m k).tail := by
  simp only [mutexQueue, mutexStep, alookup_qpop_self]
  cases alookup k m.queues <;> rfl

theorem mutexQueue_rel_ne {k2 k : String} (h : k2 ≠ k) (m : KeyedMutex) :
    mutexQueue (mutexStep m (MEv.rel k)) k2 = mutexQueue m k2 := by
  simp [mutexQueue, mutexStep, alookup_qpop_ne h]

theorem suffix_append_left {α : Type} {l1 l2 : List α} (h : List.IsSuffix l1 l2)
    (t : List α) : List.IsSuffix (l1 ++ t) (l2 ++ t) := by
  obtain ⟨u, hu⟩ := h
  exact ⟨u, by rw [← List.append_assoc, hu]⟩

theorem mutexRun_suffix (evs : List MEv) (m : KeyedMutex) (k : String) :
    List.IsSuffix (mutexQueue (mutexRun m evs) k)
      (mutexQueue m k ++ arrivalsOf k m.nextAcq evs) := by
  induction evs generalizing m with
  | nil =>
    simp only [mutexRun, List.foldl_nil, arrivalsOf, List.append_nil]
    exact List.suffix_rfl
  | cons e evs ih =>
    have hrun : mutexRun m (e :: evs) = mutexRun (mutexStep m e) evs := rfl
    cases e with
    | acq k2 =>
      by_cases h : k2 = k
      · subst h
        rw [hrun]
        have hgoal := ih (mutexStep m (MEv.acq k2))
        rw [mutexQueue_acq_self] at hgoal
        have hstep : (mutexStep m (MEv.acq k2)).nextAcq = m.nextAcq + 1 := rfl
        rw [hstep] at hgoal
        simpa [arrivalsOf, List.append_assoc] using hgoal
      · rw [hrun]
        have hgoal := ih (mutexStep m (MEv.acq k2))
        rw [mutexQueue_acq_ne (Ne.symm h)] at hgoal
        have hstep : (mutexStep m (MEv.acq k2)).nextAcq = m.nextAcq + 1 := rfl
        rw [hstep] at hgoal
        simpa [arrivalsOf, h] using hgoal
    | rel k2 =>
      by_cases h : k2 = k
      · subst h
        rw [hrun]
        have hgoal := ih (mutexStep m (MEv.rel k2))
        rw [mutexQueue_rel_self] at hgoal
        have hstep : (mutexStep m (MEv.rel k2)).nextAcq = m.nextAcq := rfl
        rw [hstep] at hgoal
        have hsuf : List.IsSuffix ((mutexQueue m k2).tail ++ arrivalsOf k2 m.nextAcq evs)
            (mutexQueue m k2 ++ arrivalsOf k2 m.nextAcq evs) :=
          suffix_append_left (List.tail_suffix _) _
        simpa [arrivalsOf] using hgoal.trans hsuf
      · rw [hrun]
        have hgoal := ih (mutexStep m (MEv.rel k2))
        rw [mutexQueue_rel_ne (Ne.symm h)] at hgoal
        have hstep : (mutexStep m (MEv.rel k2)).nextAcq = m.nextAcq := rfl
        rw [hstep] at hgoal
        simpa [arrivalsOf] using hgoal

/-! ## Claim theorems -/

/-- Claim C1 (code bug). The claim says two back-to-back `loadArchive(K)`
calls with no interleaving await share one pending result and cause exactly
one storage open. In the code, `loadPromises[key]` is only assigned after
`await mkdirp(archivePath)` (line 49 versus line 53), and the first segment
of the function mutates nothing, so the second call evaluates
`loadArchive_seg1` on the same state as the first and also reaches the
mkdirp await (first conjunct, which covers both calls) instead of joining
the first load. When both calls then resume, each starts its own inner load:
the two returned promises differ and the storage backend observes two open
calls for the key. -/
theorem loadArchive_backToBack_race :
    loadArchive_seg1 archiverInit (JsKey.str "a1b2") = LoadSeg1Out.suspendedAtMkdirp "a1b2" ∧
    (loadArchive_seg2 archiverInit "a1b2").2 ≠
      (loadArchive_seg2 (loadArchive_seg2 archiverInit "a1b2").1 "a1b2").2 ∧
    (loadArchive_seg2 (loadArchive_seg2 archiverInit "a1b2").1 "a1b2").1.openCount = 2 := by
  refine ⟨rfl, ?_, rfl⟩
  decide

/-- Claim C4: when the inner load for key `k` fails, every caller awaiting
that load observes the failure, including a caller that joins while the load
is in flight (first conjunct: it receives the same promise id, whose recorded
outcome is the error), the in-flight marker is cleared, the key is not
published as resident, and a later `loadArchive` run starts a fresh load. -/
theorem loadFailure_propagates_and_clears
    (st : ArchiverState) (k : String) (pid : Nat) (e : ArchiverErr)
    (hres : alookup k st.archives = none)
    (hload : alookup k st.loadPromises = some pid) :
    loadArchive_seg1 st (JsKey.str k) = LoadSeg1Out.joined pid ∧
    promiseResult (settleLoad st k pid (Except.error e)) pid = some (Except.error e) ∧
    isLoadingArchive (settleLoad st k pid (Except.error e)) (JsKey.str k) = false ∧
    getArchive (settleLoad st k pid (Except.error e)) (JsKey.str k) = none ∧
    loadArchive_seg1 (settleLoad st k pid (Except.error e)) (JsKey.str k) =
      LoadSeg1Out.suspendedAtMkdirp k := by
  refine ⟨?_, ?_, ?_, ?_, ?_⟩
  · simp [loadArchive_seg1, datEncodingToStr, hres, hload]
  · simp [promiseResult, settleLoad, alookup]
  · simp [isLoadingArchive, settleLoad, jsPropertyKey, alookup_aerase_self]
  · simp [getArchive, settleLoad, jsPropertyKey, hres]
  · simp [loadArchive_seg1, settleLoad, datEncodingToStr, hres, alookup_aerase_self]

/-- Witness for C4 at a concrete state: one load of key `aa` is in flight. -/
theorem loadFailure_propagates_and_clears_witness :
    loadArchive_seg1 (loadArchive_seg2 archiverInit "aa").1 (JsKey.str "aa") =
      LoadSeg1Out.joined 0 ∧
    promiseResult (settleLoad (loadArchive_seg2 archiverInit "aa").1 "aa" 0
        (Except.error ArchiverErr.storageOpen)) 0 =
      some (Except.error ArchiverErr.storageOpen) ∧
    isLoadingArchive (settleLoad (loadArchive_seg2 archiverInit "aa").1 "aa" 0
        (Except.error ArchiverErr.storageOpen)) (JsKey.str "aa") = false ∧
    getArchive (settleLoad (loadArchive_seg2 archiverInit "aa").1 "aa" 0
        (Except.error ArchiverErr.storageOpen)) (JsKey.str "aa") = none ∧
    loadArchive_seg1 (settleLoad (loadArchive_seg2 archiverInit "aa").1 "aa" 0
        (Except.error ArchiverErr.storageOpen)) (JsKey.str "aa") =
      LoadSeg1Out.suspendedAtMkdirp "aa" :=
  loadFailure_propagates_and_clears (loadArchive_seg2 archiverInit "aa").1 "aa" 0
    ArchiverErr.storageOpen rfl rfl

/-- Counterexample to claim C2 as stated: with a load of key `aa` in flight
and the key not resident, a full run of `closeArchive` settles successfully
while the load promise is still pending (first two conjuncts: the run
resolves and leaves the whole state, including the in-flight marker,
untouched, so it did not wait for the load), and the load then settling
publishes the handle as resident, which the already completed close never
closed. -/
theorem closeArchive_during_load_cex :
    (closeArchive_run (loadArchive_seg2 archiverInit "aa").1 (JsKey.str "aa")
        (fun _ => false)).2 = Except.ok () ∧
    (closeArchive_run (loadArchive_seg2 archiverInit "aa").1 (JsKey.str "aa")
        (fun _ => false)).1 = (loadArchive_seg2 archiverInit "aa").1 ∧
    isLoadingArchive (closeArchive_run (loadArchive_seg2 archiverInit "aa").1 (JsKey.str "aa")
        (fun _ => false)).1 (JsKey.str "aa") = true ∧
    getArchive (settleLoad (loadArchive_seg2 archiverInit "aa").1 "aa" 0 (Except.ok ()))
        (JsKey.str "aa") = some 0 :=
  ⟨rfl, rfl, rfl, rfl⟩

/-- Claim C2 as amended: a `closeArchive(K)` that runs while a load for K is
in flight treats K as absent and resolves immediately as a no-op, without
waiting for the load to settle and without touching the in-flight marker; a
load that then succeeds still publishes its handle as resident, leaving a
resident handle this close never closed. (The code never transitions a
Loading key to Closing, but because the close ignores the load, not because
it waits for it.) -/
theorem closeArchive_during_load_noop
    (st : ArchiverState) (k : String) (pid : Nat) (fails : Nat → Bool)
    (hres : alookup k st.archives = none)
    (hload : alookup k st.loadPromises = some pid) :
    closeArchive_run st (JsKey.str k) fails = (st, Except.ok ()) ∧
    isLoadingArchive st (JsKey.str k) = true ∧
    getArchive (settleLoad st k pid (Except.ok ())) (JsKey.str k) = some pid := by
  refine ⟨?_, ?_, ?_⟩
  · simp [closeArchive_run, datEncodingToStr, hres]
  · simp [isLoadingArchive, jsPropertyKey, hload]
  · simp [getArchive, settleLoad, jsPropertyKey, alookup_ainsert_self]

/-- Witness for the amended C2 at a concrete state with key `bb` loading. -/
theorem closeArchive_during_load_noop_witness :
    closeArchive_run (loadArchive_seg2 archiverInit "bb").1 (JsKey.str "bb")
        (fun _ => false) = ((loadArchive_seg2 archiverInit "bb").1, Except.ok ()) ∧
    isLoadingArchive (loadArchive_seg2 archiverInit "bb").1 (JsKey.str "bb") = true ∧
    getArchive (settleLoad (loadArchive_seg2 archiverInit "bb").1 "bb" 0 (Except.ok ()))
        (JsKey.str "bb") = some 0 :=
  closeArchive_during_load_noop (loadArchive_seg2 archiverInit "bb").1 "bb" 0
    (fun _ => false) rfl rfl

/-- Counterexample to claim C5 as stated: with a load of key `aa` in flight,
`closeArchive` resolves (first conjunct) yet `isLoadingArchive` is still true
afterwards, because the close neither waits for nor clears the in-flight
marker. -/
theorem closeArchive_post_loading_cex :
    (closeArchive_run (loadArchive_seg2 archiverInit "aa").1 (JsKey.str "aa")
        (fun _ => true)).2 = Except.ok () ∧
    isLoadingArchive (closeArchive_run (loadArchive_seg2 archiverInit "aa").1
        (JsKey.str "aa") (fun _ => true)).1 (JsKey.str "aa") = true :=
  ⟨rfl, rfl⟩

/-- Claim C5 as amended: whenever `closeArchive(K)` resolves (either the
no-op path for an absent key or the full teardown of a resident one),
`getArchive(K)` afterwards returns absent; `isLoadingArchive(K)` is simply
unchanged by the close, so it is false afterwards exactly when no load for K
was in flight. -/
theorem closeArchive_post_state
    (st : ArchiverState) (k : String) (fails : Nat → Bool)
    (hok : (closeArchive_run st (JsKey.str k) fails).2 = Except.ok ()) :
    getArchive (closeArchive_run st (JsKey.str k) fails).1 (JsKey.str k) = none ∧
    isLoadingArchive (closeArchive_run st (JsKey.str k) fails).1 (JsKey.str k) =
      isLoadingArchive st (JsKey.str k) := by
  cases halo : alookup k st.archives with
  | none =>
    have hrun : closeArchive_run st (JsKey.str k) fails = (st, Except.ok ()) := by
      simp [closeArchive_run, datEncodingToStr, halo]
    rw [hrun]
    exact ⟨by simp [getArchive, jsPropertyKey, halo], rfl⟩
  | some h =>
    by_cases hf : fails h
    · exfalso
      have hbad : (closeArchive_run st (JsKey.str k) fails).2 =
          Except.error ArchiverErr.closeFail := by
        simp [closeArchive_run, datEncodingToStr, halo, hf]
      rw [hbad] at hok
      exact Except.noConfusion hok
    · have hrun : closeArchive_run st (JsKey.str k) fails =
          ({ st with archives := aerase k st.archives }, Except.ok ()) := by
        simp [closeArchive_run, datEncodingToStr, halo, hf]
      rw [hrun]
      refine ⟨?_, rfl⟩
      simp [getArchive, jsPropertyKey, alookup_aerase_self]

/-- Witness for the amended C5 at a concrete resident state for key `aa`. -/
theorem closeArchive_post_state_witness :
    getArchive (closeArchive_run (settleLoad (loadArchive_seg2 archiverInit "aa").1 "aa" 0
        (Except.ok ())) (JsKey.str "aa") (fun _ => false)).1 (JsKey.str "aa") = none ∧
    isLoadingArchive (closeArchive_run (settleLoad (loadArchive_seg2 archiverInit "aa").1 "aa" 0
        (Except.ok ())) (JsKey.str "aa") (fun _ => false)).1 (JsKey.str "aa") =
      isLoadingArchive (settleLoad (loadArchive_seg2 archiverInit "aa").1 "aa" 0
        (Except.ok ())) (JsKey.str "aa") :=
  closeArchive_post_state (settleLoad (loadArchive_seg2 archiverInit "aa").1 "aa" 0
    (Except.ok ())) "aa" (fun _ => false) rfl

/-- Claim C9: closing an absent key is a no-op that resolves successfully
and leaves the whole registry state unchanged, so closing an already closed
key has no effect; `closeArchive` is idempotent. -/
theorem closeArchive_absent_noop
    (st : ArchiverState) (key : JsKey) (fails : Nat → Bool)
    (habs : alookup (datEncodingToStr key) st.archives = none) :
    closeArchive_run st key fails = (st, Except.ok ()) := by
  simp [closeArchive_run, habs]

/-- Witness for C9: closing a key on the empty registry. -/
theorem closeArchive_absent_noop_witness :
    closeArchive_run archiverInit (JsKey.str "aa") (fun _ => true) =
      (archiverInit, Except.ok ()) :=
  closeArchive_absent_noop archiverInit (JsKey.str "aa") (fun _ => true) rfl

/-- Counterexample to claim C3 as stated: with two resident archives `aa`
and `bb` where closing `aa` fails, `closeAllArchives` does not resolve
successfully but rejects with the close failure; the other archive is still
fully closed, while the failing key stays resident. -/
theorem closeAllArchives_failure_cex :
    (closeAllArchives (settleLoad (loadArchive_seg2 (settleLoad
        (loadArchive_seg2 archiverInit "aa").1 "aa" 0 (Except.ok ())) "bb").1 "bb" 1
        (Except.ok ())) (fun h => h == 0)).2 = Except.error ArchiverErr.closeFail ∧
    alookup "bb" (closeAllArchives (settleLoad (loadArchive_seg2 (settleLoad
        (loadArchive_seg2 archiverInit "aa").1 "aa" 0 (Except.ok ())) "bb").1 "bb" 1
        (Except.ok ())) (fun h => h == 0)).1.archives = none ∧
    alookup "aa" (closeAllArchives (settleLoad (loadArchive_seg2 (settleLoad
        (loadArchive_seg2 archiverInit "aa").1 "aa" 0 (Except.ok ())) "bb").1 "bb" 1
        (Except.ok ())) (fun h => h == 0)).1.archives = some 0 :=
  ⟨rfl, rfl, rfl⟩

/-- Claim C3 as amended: `closeAllArchives()` initiates a close for every
currently resident key on a snapshot of the registry; every key whose own
close does not fail is fully closed (removed from the registry) regardless
of failures closing other keys, and the aggregate resolves successfully
exactly when no individual close fails — a failure is not logged and
swallowed but propagated, rejecting the aggregate. -/
theorem closeAllArchives_isolated_closes (st : ArchiverState) (fails : Nat → Bool) :
    (∀ p ∈ st.archives, fails p.2 = false →
        alookup p.1 (closeAllArchives st fails).1.archives = none) ∧
    ((closeAllArchives st fails).2 = Except.ok () ↔
        ∀ p ∈ st.archives, fails p.2 = false) := by
  constructor
  · intro p hmem hok
    exact closeAllGo_mem fails hok st.archives st (Except.ok ()) (by simpa using hmem)
  · exact closeAllGo_ok_iff fails st.archives st

/-- Witness for the amended C3: in the two-archive state where closing `aa`
fails, the non-failing key `bb` is nevertheless fully closed. -/
theorem closeAllArchives_isolated_closes_witness :
    alookup "bb" (closeAllArchives (settleLoad (loadArchive_seg2 (settleLoad
        (loadArchive_seg2 archiverInit "aa").1 "aa" 0 (Except.ok ())) "bb").1 "bb" 1
        (Except.ok ())) (fun h => h == 0)).1.archives = none :=
  (closeAllArchives_isolated_closes (settleLoad (loadArchive_seg2 (settleLoad
      (loadArchive_seg2 archiverInit "aa").1 "aa" 0 (Except.ok ())) "bb").1 "bb" 1
      (Except.ok ())) (fun h => h == 0)).1 ("bb", 1) (by decide) rfl

/-- Claim C10: `loadArchive` and `closeArchive` normalize their key through
`datEncoding.toStr` before indexing the registry (so a buffer key is stored
and closed under its hex string), while `getArchive` and `isLoadingArchive`
index with the raw argument, which JavaScript coerces a buffer to via its
lossy UTF-8 string — a different string from the hex form for every nonempty
buffer. Hence after a load supplied with a buffer key settles, `getArchive`
on that buffer returns absent and `isLoadingArchive` is false although the
archive is resident under the normalized hex key, and `closeArchive` on the
buffer still finds and removes the resident entry. -/
theorem key_normalization_mismatch
    (B : List Nat) (hne : B ≠ []) (hbytes : ∀ b ∈ B, b < 256) :
    loadArchive_seg1 archiverInit (JsKey.buf B) =
      LoadSeg1Out.suspendedAtMkdirp (hexEncode B) ∧
    getArchive (settleLoad (loadArchive_seg2 archiverInit (hexEncode B)).1 (hexEncode B) 0
        (Except.ok ())) (JsKey.buf B) = none ∧
    isLoadingArchive (settleLoad (loadArchive_seg2 archiverInit (hexEncode B)).1 (hexEncode B) 0
        (Except.ok ())) (JsKey.buf B) = false ∧
    getArchive (settleLoad (loadArchive_seg2 archiverInit (hexEncode B)).1 (hexEncode B) 0
        (Except.ok ())) (JsKey.str (hexEncode B)) = some 0 ∧
    alookup (hexEncode B)
        (closeArchive_run (settleLoad (loadArchive_seg2 archiverInit (hexEncode B)).1
          (hexEncode B) 0 (Except.ok ())) (JsKey.buf B) (fun _ => false)).1.archives =
      none := by
  have hkne : jsPropertyKey (JsKey.buf B) ≠ hexEncode B := jsPropertyKey_buf_ne_hex hne
  refine ⟨?_, ?_, ?_, ?_, ?_⟩
  · simp [loadArchive_seg1, datEncodingToStr, alookup, archiverInit]
  · simp [getArchive, settleLoad, alookup_ainsert_self, alookup_ainsert_ne hkne,
      alookup, archiverInit, Ne.symm hkne]
  · simp [isLoadingArchive, settleLoad, alookup_aerase_ne hkne, alookup_ainsert_ne hkne,
      alookup, archiverInit, Ne.symm hkne]
  · simp [getArchive, settleLoad, jsPropertyKey, alookup_ainsert_self]
  · simp [closeArchive_run, datEncodingToStr, settleLoad, alookup_ainsert_self,
      alookup_aerase_self]

/-- Witness for C10 at the concrete two-byte buffer holding 97 and 98, whose
hex form is the string of the four characters 6162 while its raw JS property
string is the two characters ab. -/
theorem key_normalization_mismatch_witness :
    loadArchive_seg1 archiverInit (JsKey.buf [97, 98]) =
      LoadSeg1Out.suspendedAtMkdirp (hexEncode [97, 98]) ∧
    getArchive (settleLoad (loadArchive_seg2 archiverInit (hexEncode [97, 98])).1
        (hexEncode [97, 98]) 0 (Except.ok ())) (JsKey.buf [97, 98]) = none ∧
    isLoadingArchive (settleLoad (loadArchive_seg2 archiverInit (hexEncode [97, 98])).1
        (hexEncode [97, 98]) 0 (Except.ok ())) (JsKey.buf [97, 98]) = false ∧
    getArchive (settleLoad (loadArchive_seg2 archiverInit (hexEncode [97, 98])).1
        (hexEncode [97, 98]) 0 (Except.ok ())) (JsKey.str (hexEncode [97, 98])) = some 0 ∧
    alookup (hexEncode [97, 98])
        (closeArchive_run (settleLoad (loadArchive_seg2 archiverInit (hexEncode [97, 98])).1
          (hexEncode [97, 98]) 0 (Except.ok ())) (JsKey.buf [97, 98])
          (fun _ => false)).1.archives = none :=
  key_normalization_mismatch [97, 98] (by decide) (by decide)

/-- Claim C6: part one — if the handshake deadline timer of a stream fires
while still armed, that stream is destroyed with the timeout error and, once
the close event the destruction triggers fires, it is removed from the
collection of its handle, while every other stream keeps its membership and
no other stream is destroyed by this timeout (the registry of resident
archives is not even mentioned by the stream handlers, so the owning handle
stays resident and unaffected). Part two — along any trace in which the
handshake of a created stream is observed before its timer fires, the timer
is cancelled by the handshake and the stream is never destroyed by the
timeout, whatever happens afterwards, including a late firing attempt. -/
theorem handshake_timeout_behavior :
    (∀ (st : SwarmState) (sid : Nat),
        sid ∈ st.timerArmed → sid ∈ st.created → sid ∉ st.closed → st.streams.Nodup →
        (sid ∈ (swarmStep st (SwarmEv.timerFire sid)).destroyedTimeout ∧
         sid ∉
           (swarmStep (swarmStep st (SwarmEv.timerFire sid)) (SwarmEv.closeEv sid)).streams ∧
         (∀ s2 : Nat, s2 ≠ sid →
            (s2 ∈ (swarmStep (swarmStep st (SwarmEv.timerFire sid))
                (SwarmEv.closeEv sid)).streams ↔ s2 ∈ st.streams)) ∧
         (∀ s2 : Nat, s2 ≠ sid →
            (s2 ∈ (swarmStep st (SwarmEv.timerFire sid)).destroyedTimeout ↔
             s2 ∈ st.destroyedTimeout)))) ∧
    (∀ (pre post : List SwarmEv) (sid : Nat),
        sid ∈ (swarmRun swarmInit pre).created →
        SwarmEv.timerFire sid ∉ pre →
        (sid ∉ (swarmRun swarmInit (pre ++ [SwarmEv.handshake sid])).timerArmed ∧
         sid ∉ (swarmRun swarmInit
            (pre ++ SwarmEv.handshake sid :: post)).destroyedTimeout)) := by
  constructor
  · intro st sid harm hcr hncl hnd
    have hts := swarmStep_timerFire_pos harm
    have hguard1 : sid ∈ (swarmStep st (SwarmEv.timerFire sid)).created ∧
        sid ∉ (swarmStep st (SwarmEv.timerFire sid)).closed := by
      rw [hts]
      exact ⟨hcr, hncl⟩
    have htc := swarmStep_closeEv_pos hguard1
    have hstreams : (swarmStep st (SwarmEv.timerFire sid)).streams = st.streams := by
      rw [hts]
    refine ⟨?_, ?_, ?_, ?_⟩
    · rw [hts]
      exact List.mem_cons_self _ _
    · rw [htc]
      show sid ∉ (swarmStep st (SwarmEv.timerFire sid)).streams.erase sid
      rw [hstreams]
      intro hm
      exact ((hnd.mem_erase_iff).mp hm).1 rfl
    · intro s2 hs2
      rw [htc]
      show s2 ∈ (swarmStep st (SwarmEv.timerFire sid)).streams.erase sid ↔ s2 ∈ st.streams
      rw [hstreams]
      exact List.mem_erase_of_ne hs2
    · intro s2 hs2
      rw [hts]
      show s2 ∈ sid :: st.destroyedTimeout ↔ s2 ∈ st.destroyedTimeout
      constructor
      · intro hm
        rcases List.mem_cons.mp hm with heq | hm2
        · exact absurd heq hs2
        · exact hm2
      · exact List.mem_cons_of_mem _
  · intro pre post sid hcr hnofire
    have hinv := swarmInv_run pre swarmInit swarmInv_init
    have h3 : sid < (swarmRun swarmInit pre).nextSid := hinv.1 sid hcr
    have h2 : sid ∉ (swarmRun swarmInit pre).destroyedTimeout :=
      notFired_run sid pre swarmInit (by simp [swarmInit]) hnofire
    have hstep1 : swarmRun swarmInit (pre ++ [SwarmEv.handshake sid]) =
        swarmStep (swarmRun swarmInit pre) (SwarmEv.handshake sid) := by
      simp [swarmRun, List.foldl_append]
    have g1 : sid ∉ (swarmStep (swarmRun swarmInit pre) (SwarmEv.handshake sid)).timerArmed := by
      intro hm
      exact (hinv.2.2.1.mem_erase_iff).mp hm |>.1 rfl
    have g2 : sid ∉ (swarmStep (swarmRun swarmInit pre) (SwarmEv.handshake sid)).destroyedTimeout :=
      h2
    have g3 : sid < (swarmStep (swarmRun swarmInit pre) (SwarmEv.handshake sid)).nextSid := h3
    refine ⟨by rw [hstep1]; exact g1, ?_⟩
    have hsplit : pre ++ SwarmEv.handshake sid :: post =
        (pre ++ [SwarmEv.handshake sid]) ++ post := by
      rw [List.append_assoc]
      rfl
    rw [hsplit]
    have hrun : swarmRun swarmInit ((pre ++ [SwarmEv.handshake sid]) ++ post) =
        swarmRun (swarmRun swarmInit (pre ++ [SwarmEv.handshake sid])) post := by
      simp [swarmRun, List.foldl_append]
    rw [hrun, hstep1]
    exact (timeoutSafe_run sid post _ g1 g2 g3).2.1

/-- Witness for C6: one connection is made (stream 0); against the timeout
path the timer fires and the close removes the stream, and against the
handshake path the handshake at the deadline trace position before the timer
cancels it so a later firing attempt destroys nothing. -/
theorem handshake_timeout_behavior_witness :
    0 ∈ (swarmStep (swarmRun swarmInit [SwarmEv.connect])
        (SwarmEv.timerFire 0)).destroyedTimeout ∧
    0 ∉ (swarmStep (swarmStep (swarmRun swarmInit [SwarmEv.connect]) (SwarmEv.timerFire 0))
        (SwarmEv.closeEv 0)).streams ∧
    0 ∉ (swarmRun swarmInit ([SwarmEv.connect] ++ [SwarmEv.handshake 0])).timerArmed ∧
    0 ∉ (swarmRun swarmInit
        ([SwarmEv.connect] ++ SwarmEv.handshake 0 :: [SwarmEv.timerFire 0])).destroyedTimeout := by
  have h1 := handshake_timeout_behavior.1 (swarmRun swarmInit [SwarmEv.connect]) 0
    (by decide) (by decide) (by decide) (by decide)
  have h2 := handshake_timeout_behavior.2 [SwarmEv.connect] [SwarmEv.timerFire 0] 0
    (by decide) (by decide)
  exact ⟨h1.1, h1.2.1, h2.1, h2.2⟩

/-- Claim C7: along every trace of stream events from a fresh handle, a
replication stream belongs to the stream collection of its handle exactly
while it is open — it is appended at creation (the connect event) and
removed precisely when its close event fires, whether the close was clean,
errored or caused by the handshake timeout (the close handler does not
depend on the reason). -/
theorem replicationStreams_iff_open (evs : List SwarmEv) (sid : Nat) :
    sid ∈ (swarmRun swarmInit evs).streams ↔
      sid ∈ (swarmRun swarmInit evs).created ∧ sid ∉ (swarmRun swarmInit evs).closed :=
  (swarmInv_run evs swarmInit swarmInv_init).2.2.2.2.2 sid

/-- Claim C8: the keyed mutex guarantees. (1) Mutual exclusion per key: the
critical section of a key belongs to the queue head, so two acquisitions
observed inside the critical section of the same key are the same one and
same-key critical sections never overlap. (2) FIFO: after any trace of
acquisitions and releases from the initial lock, the pending queue of a key
is a suffix of the arrival sequence of that key, so tickets are granted (and
their critical sections entered) exactly in arrival order, the head being
the earliest arrival not yet released. (3) Independence: an acquisition or
release on one key leaves the queue of every other key untouched, so
distinct keys never block one another. -/
theorem keyedMutex_guarantees :
    (∀ (m : KeyedMutex) (k : String) (a b : Nat),
        mutexHolder m k = some a → mutexHolder m k = some b → a = b) ∧
    (∀ (evs : List MEv) (k : String),
        List.IsSuffix (mutexQueue (mutexRun mutexInit evs) k) (arrivalsOf k 0 evs)) ∧
    (∀ (m : KeyedMutex) (k1 k2 : String), k2 ≠ k1 →
        mutexQueue (mutexStep m (MEv.acq k1)) k2 = mutexQueue m k2 ∧
        mutexQueue (mutexStep m (MEv.rel k1)) k2 = mutexQueue m k2) := by
  refine ⟨?_, ?_, ?_⟩
  · intro m k a b ha hb
    rw [ha] at hb
    exact Option.some.inj hb
  · intro evs k
    have h := mutexRun_suffix evs mutexInit k
    simpa [mutexQueue, mutexInit, alookup] using h
  · intro m k1 k2 h
    exact ⟨mutexQueue_acq_ne h m, mutexQueue_rel_ne h m⟩

/-- Witness for C8: mutual exclusion applied at a lock whose key `users` is
held by ticket 0, and independence applied to distinct concrete keys. -/
theorem keyedMutex_guarantees_witness :
    (0 : Nat) = 0 ∧
    mutexQueue (mutexStep mutexInit (MEv.acq "swarm")) "users" =
      mutexQueue mutexInit "users" := by
  constructor
  · exact keyedMutex_guarantees.1 ⟨[("users", [0])], 1⟩ "users" 0 0 rfl rfl
  · exact (keyedMutex_guarantees.2.2 mutexInit "swarm" "users" (by decide)).1
